import Mathlib

/-!
Verification of the NHL fantasy rankings consolidator
(`ranking_consolidator.py`) against its specification.

The Python module is shallowly embedded below.  Conventions used by the
embedding:

* Python strings are modelled as `String`; all character-level work is done
  on `String.data : List Char` with structural recursion so that every
  definition evaluates inside the kernel.
* Python `int` is `Int`.  The consensus averages (`round(avg, 1)` in the
  source, a float with one decimal digit) are represented exactly as an
  integer number of tenths (fields named `..._x10`); the spec-side rational
  meaning is recovered by dividing by 10.  Rounding is modelled as exact
  round-half-even over `ℚ` (Python's `round`); binary-float representation
  error is outside the model.
* A raised Python exception is modelled as `Except.error` with the
  exception's name; a `try/except ... continue` that swallows an error is
  modelled with `Option`.
* Python's `dict` preserves insertion order, so the name-grouping stage is
  modelled with an association list that appends new keys at the end.
* Python's `list.sort(key=...)` is a stable sort; it is modelled by pairing
  every element with its list index and sorting with `List.insertionSort`
  under the lexicographic order on (key, index), which pins down exactly the
  stable result.
* Python's `set(...)` has an unspecified iteration order (it depends on the
  process's randomized string hashes).  The order in which `set(vals)` is
  enumerated is therefore a parameter `σ : List String → List String` of the
  consensus stage; a σ faithfully models a run when `σ vals` lists exactly
  the distinct values of `vals` (`SetEnum` below).
-/

/-! ## Character and string helpers -/

/-- Characters treated as whitespace by Python's `str.strip`/`str.split`
(the common ASCII whitespace set; exotic Unicode spaces are out of scope). -/
def pyIsSpaceChar (c : Char) : Bool :=
  c == ' ' || c == '\t' || c == '\n' || c == '\r' || c == '\x0b' || c == '\x0c'

/-- Python `str.strip()` on a character list. -/
def stripChars (cs : List Char) : List Char :=
  ((cs.dropWhile pyIsSpaceChar).reverse.dropWhile pyIsSpaceChar).reverse

/-- Python `str.strip()`. -/
def pyStrip (s : String) : String :=
  String.mk (stripChars s.data)

/-- Python `str.split()` (no separator): split on whitespace runs, dropping
empty pieces.  The accumulator holds the current word reversed. -/
def wordsAux : List Char → List Char → List (List Char)
  | [], acc => if acc.isEmpty then [] else [acc.reverse]
  | c :: cs, acc =>
    if pyIsSpaceChar c then
      if acc.isEmpty then wordsAux cs [] else acc.reverse :: wordsAux cs []
    else
      wordsAux cs (c :: acc)

/-- Python `' '.join(words)`. -/
def joinSpace : List (List Char) → List Char
  | [] => []
  | [w] => w
  | w :: ws => w ++ ' ' :: joinSpace ws

/-- Python `str.replace(old, new)` for a three-character `old`
(the source only replaces `"Jr."` and `"Sr."`): left-to-right,
non-overlapping, every occurrence. -/
def replace3 (a b c : Char) (new : List Char) : List Char → List Char
  | [] => []
  | [x] => [x]
  | [x, y] => [x, y]
  | x :: y :: z :: rest =>
    if x == a && y == b && z == c then new ++ replace3 a b c new rest
    else x :: replace3 a b c new (y :: z :: rest)

/-- `RankingParser.normalize_name`: collapse whitespace
(`' '.join(name.strip().split())`), then `replace('Jr.', 'Jr')` and
`replace('Sr.', 'Sr')`. -/
def normalize_name (s : String) : String :=
  String.mk (replace3 'S' 'r' '.' ['S', 'r']
    (replace3 'J' 'r' '.' ['J', 'r'] (joinSpace (wordsAux s.data []))))

/-! ## Team-code normalizer -/

/-- `self.team_abbreviations`, in source order.  The Python dict literal
repeats the key `'LAK'` (with the same value); a later duplicate key
overwrites the earlier one, which is value-identical here, so an ordered
association list searched from the front is equivalent. -/
def team_abbreviations : List (String × String) :=
  [("ANA", "ANA"), ("BOS", "BOS"), ("BUF", "BUF"), ("CAR", "CAR"), ("CBJ", "CBJ"),
   ("CGY", "CGY"), ("CHI", "CHI"), ("COL", "COL"), ("DAL", "DAL"), ("DET", "DET"),
   ("EDM", "EDM"), ("FLA", "FLA"), ("LAK", "LAK"), ("MIN", "MIN"), ("MTL", "MTL"),
   ("NJ", "NJ"), ("NSH", "NSH"), ("NYI", "NYI"), ("NYR", "NYR"), ("OTT", "OTT"),
   ("PHI", "PHI"), ("PIT", "PIT"), ("SEA", "SEA"), ("SJ", "SJ"), ("STL", "STL"),
   ("TB", "TB"), ("TOR", "TOR"), ("UTA", "UTA"), ("VAN", "VAN"), ("VGK", "VGK"),
   ("WPG", "WPG"), ("WSH", "WSH"),
   ("TBL", "TB"), ("SJS", "SJ"), ("LAS", "VGK"), ("Wpg", "WPG"),
   ("Tor", "TOR"), ("Edm", "EDM"), ("Col", "COL"), ("Bos", "BOS"), ("Ott", "OTT"),
   ("Nsh", "NSH"), ("Dal", "DAL")]

/-- `self.team_abbreviations.get(t, t)`: table lookup with the raw token as
the default. -/
def normalizeTeam (t : String) : String :=
  (team_abbreviations.lookup t).getD t

/-! ## The raw record produced by every source parser -/

/-- One player's standing as reported by one source (the dicts appended to
`players` by each `parse_*` method). -/
structure RawRecord where
  name : String
  team : String
  position : String
  overall_rank : Int
  position_rank : Int
  multi_position : Bool
deriving DecidableEq, Repr, Inhabited

/-! ## Numeric parsing helpers -/

/-- Digit run to value. -/
def digitsVal (cs : List Char) : Nat :=
  cs.foldl (fun n c => 10 * n + (c.toNat - 48)) 0

/-- Nonempty all-ASCII-digits test; models `str.isdigit` for the inputs in
scope (Unicode digit variants are out of scope). -/
def pyIsdigit (s : String) : Bool :=
  !s.data.isEmpty && s.data.all Char.isDigit

/-- Python `int(s)`: strip whitespace, optional sign, a nonempty digit run;
`none` models a raised `ValueError`.  (Underscore digit separators are out
of scope.) -/
def pyInt? (s : String) : Option Int :=
  let cs := stripChars s.data
  match cs with
  | '+' :: ds => if !ds.isEmpty && ds.all Char.isDigit then some (digitsVal ds) else none
  | '-' :: ds => if !ds.isEmpty && ds.all Char.isDigit then some (-(digitsVal ds : Int)) else none
  | ds => if !ds.isEmpty && ds.all Char.isDigit then some (digitsVal ds) else none

/-! ## FantasyPros CSV parser (`parse_fantasyprops_csv`) -/

/-- Substring test (Python `needle in haystack`). -/
def hasSub (needle : List Char) : List Char → Bool
  | [] => needle.isEmpty
  | c :: cs => needle.isPrefixOf (c :: cs) || hasSub needle cs

/-- Position inferred from the file's name (the `'_C_' in filename` chain). -/
def csvPosition (filename : String) : String :=
  if hasSub "_C_".data filename.data then "C"
  else if hasSub "_LW_".data filename.data then "LW"
  else if hasSub "_RW_".data filename.data then "RW"
  else if hasSub "_D_".data filename.data then "D"
  else if hasSub "_G_".data filename.data then "G"
  else "F"

/-- `csv.DictReader` row access `row[k]`: `Except.error` models a `KeyError`
when the header lacks the column; `Option.none` inside models the `None`
filled in for a short row (`restval`). -/
def dictRow (header row : List String) (k : String) : Except String (Option String) :=
  match header.findIdx? (· == k) with
  | none => .error "KeyError"
  | some i => .ok (row.get? i)

/-- One iteration of the `for row in reader` loop body.  The body runs
`normalize_name(row['PLAYER NAME'])`, then the team lookup, then
`int(row['RK'])`, with no `try/except`: any failure propagates and aborts
the whole parse.  `row['TEAM'] = None` is no failure (it flows through
`dict.get`); `None` is modelled as `""` (both are falsy downstream). -/
def csvRecord (filename : String) (header row : List String) : Except String RawRecord := do
  let nameVal ← dictRow header row "PLAYER NAME"
  match nameVal with
  | none => .error "AttributeError"
  | some rawName =>
    let nm := normalize_name rawName
    let teamVal ← dictRow header row "TEAM"
    let tm := match teamVal with
      | none => ""
      | some t => normalizeTeam t
    let pos := csvPosition filename
    let rkVal ← dictRow header row "RK"
    match rkVal with
    | none => .error "TypeError"
    | some rk =>
      match pyInt? rk with
      | none => .error "ValueError"
      | some r =>
        pure { name := nm, team := tm, position := pos,
               overall_rank := r, position_rank := r,
               multi_position := pos == "F" }

/-- `parse_fantasyprops_csv`, over the already-line-split CSV rows
(the csv module's quoting layer is out of scope).  `DictReader` skips
blank rows; every other row must parse or the whole call raises. -/
def parse_fantasyprops_csv (filename : String) (header : List String) :
    List (List String) → Except String (List RawRecord)
  | [] => .ok []
  | row :: rows =>
    if row.isEmpty then parse_fantasyprops_csv filename header rows
    else do
      let r ← csvRecord filename header row
      let rest ← parse_fantasyprops_csv filename header rows
      pure (r :: rest)

/-! ## Hockey Handbook parser (`parse_hh_text`) -/

/-- Splitter for `pySplitTab`; the accumulator holds the current piece
reversed. -/
def splitTabAux : List Char → List Char → List (List Char)
  | [], acc => [acc.reverse]
  | c :: cs, acc =>
    if c == '\t' then acc.reverse :: splitTabAux cs [] else splitTabAux cs (c :: acc)

/-- Python `s.split('\t')` (keeps empty pieces). -/
def pySplitTab (s : String) : List String :=
  (splitTabAux s.data []).map String.mk

/-- One line of the Hockey Handbook table: strip, skip blanks, split on
tabs; a line qualifies when it has ≥ 4 fields and field 0 `isdigit`; the
`try/except (ValueError, IndexError)` that skips a failing line is the
`Option` bind on `pyInt?`. -/
def hhParseLine (line : String) : Option RawRecord :=
  let l := pyStrip line
  if l == "" then none
  else
    let parts := pySplitTab l
    if parts.length ≥ 4 && pyIsdigit (parts.getD 0 "") then
      match pyInt? (parts.getD 0 "") with
      | none => none
      | some r =>
        some { name := normalize_name (parts.getD 1 ""),
               team := normalizeTeam (parts.getD 3 ""),
               position := parts.getD 2 "",
               overall_rank := r, position_rank := r,
               multi_position := parts.getD 2 "" == "F" }
    else none

/-- `parse_hh_text` over the file's lines. -/
def parse_hh_text (lines : List String) : List RawRecord :=
  lines.filterMap hhParseLine

/-! ## Yahoo parser (`parse_yahoo_text`) -/

/-- Tail of the `([A-Z]{2,3})\s*-\s*([A-Z]+)` pattern after the team token:
`\s*-\s*` then a maximal nonempty `[A-Z]+` capture. -/
def afterDash (cs : List Char) : Option String :=
  match cs.dropWhile pyIsSpaceChar with
  | '-' :: rest =>
    let pos := (rest.dropWhile pyIsSpaceChar).takeWhile Char.isUpper
    if pos.isEmpty then none else some (String.mk pos)
  | _ => none

/-- `re.match(r'([A-Z]{2,3})\s*-\s*([A-Z]+)', line)`: anchored at the start,
`{2,3}` greedy with backtracking (three letters tried first), trailing text
ignored.  Returns the two capture groups. -/
def matchTeamPos (cs : List Char) : Option (String × String) :=
  match cs with
  | a :: b :: c :: rest =>
    if a.isUpper && b.isUpper then
      if c.isUpper then
        match afterDash rest with
        | some p => some (String.mk [a, b, c], p)
        | none =>
          match afterDash (c :: rest) with
          | some p => some (String.mk [a, b], p)
          | none => none
      else
        match afterDash (c :: rest) with
        | some p => some (String.mk [a, b], p)
        | none => none
    else none
  | [a, b] =>
    if a.isUpper && b.isUpper then
      match afterDash [] with
      | some p => some (String.mk [a, b], p)
      | none => none
    else none
  | _ => none

/-- `re.match(r'^\d+$', s)`. -/
def reIntFull (s : String) : Bool :=
  !s.data.isEmpty && s.data.all Char.isDigit

/-- `re.match(r'^\d+%$', s)`. -/
def rePercentFull (s : String) : Bool :=
  let ds := s.data.takeWhile Char.isDigit
  !ds.isEmpty && s.data.dropWhile Char.isDigit == ['%']

/-- `re.match(r'^\d+\.\d+$', s)`. -/
def reDecimalFull (s : String) : Bool :=
  let ds := s.data.takeWhile Char.isDigit
  match s.data.dropWhile Char.isDigit with
  | '.' :: rest => !ds.isEmpty && !rest.isEmpty && rest.all Char.isDigit
  | _ => false

/-- The candidate-name test on a stripped line: nonempty, not a `Photo`/
`Player` header line, and not pure-integer / percentage / decimal noise. -/
def yahooIsCandidate (line : String) : Bool :=
  line != "" && !("Photo".data.isPrefixOf line.data) && !("Player".data.isPrefixOf line.data)
    && !reIntFull line && !rePercentFull line && !reDecimalFull line

/-- The lookahead `for j in range(i+1, min(i+5, len(lines)))`: at most four
lines after `i`, first `TEAM - POS` match wins. -/
def lookGo (lines : List String) (j : Nat) : Nat → Option (String × String)
  | 0 => none
  | k + 1 =>
    if j < lines.length then
      match matchTeamPos (pyStrip (lines.getD j "")).data with
      | some tp => some tp
      | none => lookGo lines (j + 1) k
    else none

/-- The lookahead window starting after line `i`. -/
def yahooLookahead (lines : List String) (i : Nat) : Option (String × String) :=
  lookGo lines (i + 1) 4

/-- The `while i < len(lines)` loop of `parse_yahoo_text`.  Every iteration
advances `i` by exactly one, so the fuel argument (`lines.length - i` at
every call) makes the loop structural: fuel `0` is the loop exit.  `rank` is
the running `overall_rank` counter, incremented only when a record is
emitted. -/
def yahooGo (lines : List String) : Nat → Nat → Int → List RawRecord
  | 0, _, _ => []
  | fuel + 1, i, rank =>
    let line := pyStrip (lines.getD i "")
    if yahooIsCandidate line then
      match yahooLookahead lines i with
      | some (tm, pos) =>
        { name := normalize_name line,
          team := normalizeTeam tm,
          position := pos,
          overall_rank := rank, position_rank := rank,
          multi_position := ["C", "LW", "RW"].contains pos } :: yahooGo lines fuel (i + 1) (rank + 1)
      | none => yahooGo lines fuel (i + 1) rank
    else yahooGo lines fuel (i + 1) rank

/-- `parse_yahoo_text` over the file's lines: counter starts at 1. -/
def parse_yahoo_text (lines : List String) : List RawRecord :=
  yahooGo lines lines.length 0 1

/-! ## Stable sorting, modelled with indexed pairs -/

/-- Pair every element with its index (`enumerate(l, start)`). -/
def pyEnum {α : Type} : Nat → List α → List (Nat × α)
  | _, [] => []
  | i, a :: l => (i, a) :: pyEnum (i + 1) l

/-- Lexicographic "key, then original index" order: the total order whose
sort is exactly Python's stable `list.sort(key=...)`. -/
def stableLe {α : Type} (key : α → Int) (a b : Nat × α) : Prop :=
  key a.2 < key b.2 ∨ (key a.2 = key b.2 ∧ a.1 ≤ b.1)

/-- Strict version of `stableLe`. -/
def stableLt {α : Type} (key : α → Int) (a b : Nat × α) : Prop :=
  key a.2 < key b.2 ∨ (key a.2 = key b.2 ∧ a.1 < b.1)

instance {α : Type} (key : α → Int) : DecidableRel (stableLe key) := fun a b =>
  if h1 : key a.2 < key b.2 then .isTrue (.inl h1)
  else if h2 : key a.2 = key b.2 ∧ a.1 ≤ b.1 then .isTrue (.inr h2)
  else .isFalse (fun h => h.elim h1 h2)

instance {α : Type} (key : α → Int) : DecidableRel (stableLt key) := fun a b =>
  if h1 : key a.2 < key b.2 then .isTrue (.inl h1)
  else if h2 : key a.2 = key b.2 ∧ a.1 < b.1 then .isTrue (.inr h2)
  else .isFalse (fun h => h.elim h1 h2)

instance {α : Type} (key : α → Int) : IsTotal (Nat × α) (stableLe key) :=
  ⟨fun a b => by
    rcases lt_trichotomy (key a.2) (key b.2) with h | h | h
    · exact .inl (.inl h)
    · rcases Nat.le_total a.1 b.1 with h' | h'
      · exact .inl (.inr ⟨h, h'⟩)
      · exact .inr (.inr ⟨h.symm, h'⟩)
    · exact .inr (.inl h)⟩

instance {α : Type} (key : α → Int) : IsTrans (Nat × α) (stableLe key) :=
  ⟨fun a b c hab hbc => by
    rcases hab with h1 | ⟨h1, h1'⟩ <;> rcases hbc with h2 | ⟨h2, h2'⟩
    · exact .inl (h1.trans h2)
    · exact .inl (h2 ▸ h1)
    · exact .inl (h1 ▸ h2)
    · exact .inr ⟨h1.trans h2, h1'.trans h2'⟩⟩

/-- Python's stable `list.sort(key=...)` on an index-tagged list. -/
def pySortByKey {α : Type} (key : α → Int) (l : List (Nat × α)) : List (Nat × α) :=
  List.insertionSort (stableLe key) l

/-! ## Position-rank calculator (`calculate_position_ranks`) -/

/-- The `by_position[pos]` bucket: the records of one position, in encounter
order (tagged with their index in the full pool). -/
def rawBucket (indexed : List (Nat × RawRecord)) (pos : String) : List (Nat × RawRecord) :=
  indexed.filter (fun ip => ip.2.position == pos)

/-- `calculate_position_ranks`: bucket the pool by position, stable-sort each
bucket by `overall_rank`, and overwrite each record's `position_rank` with
its 1-based index in its sorted bucket.  The Python loop mutates the record
objects in place and returns the original list, so the output keeps the
input's order; here each record's new rank is read off as its tag's position
in the sorted bucket. -/
def calculate_position_ranks (players : List RawRecord) : List RawRecord :=
  let indexed := pyEnum 0 players
  indexed.map (fun ip =>
    { ip.2 with position_rank :=
        1 + ((pySortByKey (fun r => r.overall_rank) (rawBucket indexed ip.2.position)).findIdx
          (fun jp => jp.1 == ip.1) : Int) })

/-! ## Consensus aggregation (`create_consensus_ranking`) -/

/-- Python `max(iterable, key=f)`: first element of the iteration attaining
the maximal key (later elements replace only on strictly greater key);
`none` on an empty iterable (`ValueError` in Python, unreachable in the
source because the vote lists are checked nonempty first). -/
def pyMaxKey (key : String → Nat) : List String → Option String
  | [] => none
  | x :: xs => some (xs.foldl (fun b a => if key b < key a then a else b) x)

/-- `max(set(vals), key=vals.count) if vals else dflt`, with `σ` supplying
the iteration order of `set(vals)`.  (If `σ` returns an empty list — which
no faithful enumeration does — the default is returned.) -/
def voteWith (σ : List String → List String) (vals : List String) (dflt : String) : String :=
  if vals.isEmpty then dflt
  else
    match pyMaxKey (fun t => vals.count t) (σ vals) with
    | some t => t
    | none => dflt

/-- Round-half-even of `n / d` for `d > 0`, in pure integer arithmetic
(`/` and `%` are Euclidean, so `r ∈ [0, d)` and the comparisons of `r / d`
with `1/2` become comparisons of `2 * r` with `d`). -/
def rheDiv (n d : Int) : Int :=
  let f := n / d
  let r := n % d
  if 2 * r < d then f
  else if d < 2 * r then f + 1
  else if f % 2 = 0 then f else f + 1

/-- `round(sum(ranks)/len(ranks) if ranks else 999, 1)`, exactly, in tenths:
`999` becomes `9990`; otherwise round-half-even of `10 * sum / len`. -/
def avgX10 (ranks : List Int) : Int :=
  if ranks.isEmpty then 9990 else rheDiv (10 * ranks.sum) (ranks.length : Int)

/-- One row of the final output (the consensus dict).  The two average
fields hold `round(avg, 1)` exactly, scaled by 10; the two consensus rank
fields are only added later in the source, modelled as starting at 0. -/
structure ConsensusRecord where
  name : String
  team : String
  position : String
  multi_position_eligible : Bool
  overall_rank_x10 : Int
  position_rank_x10 : Int
  consensus_overall_rank : Nat
  consensus_position_rank : Nat
deriving DecidableEq, Repr, Inhabited

/-- The nonempty team values of a group (`[p['team'] for p in players if p['team']]`). -/
def teamsOf (players : List RawRecord) : List String :=
  (players.map (fun p => p.team)).filter (fun t => t != "")

/-- The nonempty position values of a group. -/
def positionsOf (players : List RawRecord) : List String :=
  (players.map (fun p => p.position)).filter (fun t => t != "")

/-- The loop body of `create_consensus_ranking` for one `(name, players)`
group: plurality votes over nonempty teams/positions (with defaults `'UNK'`
and `'F'`), truthiness-filtered rank averages with sentinel 999, and the OR
of the multi-position flags. -/
def buildConsensus (σ : List String → List String) (gname : String)
    (players : List RawRecord) : ConsensusRecord :=
  { name := gname,
    team := voteWith σ (teamsOf players) "UNK",
    position := voteWith σ (positionsOf players) "F",
    multi_position_eligible := players.any (fun p => p.multi_position),
    overall_rank_x10 :=
      avgX10 ((players.map (fun p => p.overall_rank)).filter (fun r => r != 0)),
    position_rank_x10 :=
      avgX10 ((players.map (fun p => p.position_rank)).filter (fun r => r != 0)),
    consensus_overall_rank := 0,
    consensus_position_rank := 0 }

/-- One step of grouping: append the record to its name's group, or open a
new group at the end (insertion-ordered dict semantics of
`player_groups[player['name']].append(player)`). -/
def addToGroups : List (String × List RawRecord) → RawRecord → List (String × List RawRecord)
  | [], r => [(r.name, [r])]
  | (k, rs) :: rest, r =>
    if k == r.name then (k, rs ++ [r]) :: rest else (k, rs) :: addToGroups rest r

/-- The `defaultdict(list)` grouping of the pool by (already normalized)
name, in first-encounter order. -/
def groupByName (l : List RawRecord) : List (String × List RawRecord) :=
  l.foldl addToGroups []

/-- `for i, player in enumerate(consensus_players, 1): player['consensus_overall_rank'] = i`. -/
def assignOverallRanks : Nat → List ConsensusRecord → List ConsensusRecord
  | _, [] => []
  | i, c :: cs => { c with consensus_overall_rank := i } :: assignOverallRanks (i + 1) cs

/-- The aggregator's `by_position[pos]` bucket over the ranked consensus
list (in list order, tagged with list indices). -/
def consBucket (indexed : List (Nat × ConsensusRecord)) (pos : String) :
    List (Nat × ConsensusRecord) :=
  indexed.filter (fun ip => ip.2.position == pos)

/-- The aggregator's final loop: bucket the ranked consensus list by
position, stable-sort each bucket by the rounded average overall rank, and
overwrite each row's `consensus_position_rank` with its 1-based index in its
sorted bucket (an in-place mutation in Python, so list order is
unchanged). -/
def assignPositionRanks (ranked : List ConsensusRecord) : List ConsensusRecord :=
  let indexed := pyEnum 0 ranked
  indexed.map (fun ip =>
    { ip.2 with consensus_position_rank :=
        1 + ((pySortByKey (fun c => c.overall_rank_x10) (consBucket indexed ip.2.position)).findIdx
          (fun jp => jp.1 == ip.1)) })

/-- The ranking tail of `create_consensus_ranking`: stable-sort the built
consensus rows by the rounded average overall rank
(`consensus_players.sort(key=lambda x: x['overall_rank'])`), assign
`consensus_overall_rank` 1..N in sorted order, then assign the per-position
consensus ranks. -/
def rankConsensus (consensus_players : List ConsensusRecord) : List ConsensusRecord :=
  assignPositionRanks (assignOverallRanks 1
    ((pySortByKey (fun c => c.overall_rank_x10) (pyEnum 0 consensus_players)).map Prod.snd))

/-- `create_consensus_ranking`: group the pool by name (groups are never
empty, but the source's `if not players: continue` guard is kept), build one
consensus row per group, then sort and rank. -/
def create_consensus_ranking (σ : List String → List String)
    (all_players : List RawRecord) : List ConsensusRecord :=
  rankConsensus
    (((groupByName all_players).filter (fun g => !g.2.isEmpty)).map
      (fun g => buildConsensus σ g.1 g.2))

/-! ## Spec-side notions used to state the claims -/

/-- `order` is a faithful enumeration of Python's `set(vals)`: the distinct
values of `vals`, each exactly once, in some order. -/
def SetEnum (vals order : List String) : Prop :=
  order.Nodup ∧ (∀ x ∈ order, x ∈ vals) ∧ (∀ x ∈ vals, x ∈ order)

instance (vals order : List String) : Decidable (SetEnum vals order) := by
  unfold SetEnum
  infer_instance

/-- A nonempty vote list has a strict plurality winner (in which case the
`max(set(...), key=....count)` vote cannot depend on the set order). -/
def StrictWinner (vals : List String) : Prop :=
  vals ≠ [] → ∃ t ∈ vals, ∀ s ∈ vals, s ≠ t → vals.count s < vals.count t

instance (vals : List String) : Decidable (StrictWinner vals) := by
  unfold StrictWinner
  infer_instance

/-- Round-half-even on `ℚ` (the spec-side meaning of Python's `round`
restricted to exact arithmetic). -/
def roundHalfEvenQ (q : ℚ) : ℤ :=
  if q - (⌊q⌋ : ℚ) < 1 / 2 then ⌊q⌋
  else if (1 : ℚ) / 2 < q - (⌊q⌋ : ℚ) then ⌊q⌋ + 1
  else if ⌊q⌋ % 2 = 0 then ⌊q⌋ else ⌊q⌋ + 1

/-- Spec-side `round(q, 1)`: round-half-even to one decimal place. -/
def specRound1 (q : ℚ) : ℚ :=
  (roundHalfEvenQ (10 * q) : ℚ) / 10

/-- Spec-side arithmetic mean of a list of integer ranks. -/
def meanQ (ranks : List Int) : ℚ :=
  ((ranks.sum : ℤ) : ℚ) / ((ranks.length : ℕ) : ℚ)

/-- The rational value denoted by a tenths-scaled rank field. -/
def rankValue (z : Int) : ℚ :=
  (z : ℚ) / 10

/-- Spec-side integer interval `[s, s + len)` as a list (`range'` for
`Int`-valued ranks). -/
def intRange : Int → Nat → List Int
  | _, 0 => []
  | s, n + 1 => s :: intRange (s + 1) n

/-! ## Concrete data used by witnesses and counterexamples -/

/-- A raw record with every field supplied (used to build concrete pools). -/
def mkRaw (nm tm pos : String) (r : Int) (mp : Bool) : RawRecord :=
  { name := nm, team := tm, position := pos, overall_rank := r,
    position_rank := r, multi_position := mp }

/-- A set enumeration that lists distinct values in first-occurrence order
(one possible hash-seed outcome). -/
def enumKeepFirst : List String → List String :=
  fun l => l.foldl (fun acc x => if acc.contains x then acc else acc ++ [x]) []

/-- The reverse enumeration (another possible hash-seed outcome). -/
def enumKeepFirstRev : List String → List String :=
  fun l => (enumKeepFirst l).reverse

/-- Two sources that agree on a player's name and position but tie 1-1 on
the team vote. -/
def tiePool : List RawRecord :=
  [mkRaw "Al Ice" "X" "C" 5 false, mkRaw "Al Ice" "Y" "C" 7 false]

/-- Two sources with unanimous (hence strict-winner) team and position
votes. -/
def strictPool : List RawRecord :=
  [mkRaw "Al Ice" "X" "C" 5 false, mkRaw "Al Ice" "X" "C" 7 false,
   mkRaw "Bo Bb" "Y" "D" 1 false]

/-- Scenario E, member reported as F by a source that flags forwards as
multi-position eligible. -/
def scenERecF : RawRecord := mkRaw "Sidney Crosby" "PIT" "F" 5 true

/-- Scenario E, first member reported as C. -/
def scenERecC1 : RawRecord := mkRaw "Sidney Crosby" "PIT" "C" 6 false

/-- Scenario E, second member reported as C. -/
def scenERecC2 : RawRecord := mkRaw "Sidney Crosby" "PIT" "C" 7 false

/-- Scenario C, first source: Sidney Crosby at overall rank 5. -/
def scenCRecA : RawRecord := mkRaw "Sidney Crosby" "PIT" "C" 5 false

/-- Scenario C, second source: Sidney Crosby at overall rank 7. -/
def scenCRecB : RawRecord := mkRaw "Sidney Crosby" "PIT" "C" 7 false

/-! ## C8: the team-code normalizer -/

/-- C8: the Team-Code Normalizer is total and never fails: a raw token that
is a key of the fixed mapping table yields its canonical franchise code
(e.g. `"TBL" ↦ "TB"`, `"Edm" ↦ "EDM"`), and a token absent from the table is
returned unchanged. -/
theorem c8_team_normalizer_total (t c : String) :
    (team_abbreviations.lookup t = some c → normalizeTeam t = c)
    ∧ (team_abbreviations.lookup t = none → normalizeTeam t = t)
    ∧ normalizeTeam "TBL" = "TB" ∧ normalizeTeam "Edm" = "EDM" := by
  refine ⟨fun h => ?_, fun h => ?_, by decide, by decide⟩ <;> simp [normalizeTeam, h]

/-- Witness for `c8_team_normalizer_total`: the absent token `"ZZZ"` passes
through, the present token `"TBL"` is canonicalized. -/
theorem c8_team_normalizer_total_witness :
    (team_abbreviations.lookup "ZZZ" = none ∧ normalizeTeam "ZZZ" = "ZZZ")
    ∧ (team_abbreviations.lookup "TBL" = some "TB" ∧ normalizeTeam "TBL" = "TB") :=
  ⟨⟨by decide, (c8_team_normalizer_total "ZZZ" "TB").2.1 (by decide)⟩,
   ⟨by decide, (c8_team_normalizer_total "TBL" "TB").1 (by decide)⟩⟩

/-! ## C2: parser totality and line skipping -/

/-- C2 (amended, line-skipping half): the tab-separated Hockey Handbook
parser drops any line that fails its expected shape, leaving the records of
the remaining lines unchanged in count and order. -/
theorem c2_hh_malformed_line_skipped (xs ys : List String) (line : String)
    (h : hhParseLine line = none) :
    parse_hh_text (xs ++ line :: ys) = parse_hh_text (xs ++ ys) := by
  simp [parse_hh_text, h]

/-- Witness for `c2_hh_malformed_line_skipped` on the spec's Scenario D
line. -/
theorem c2_hh_malformed_line_skipped_witness :
    hhParseLine "not a valid ranking row" = none
    ∧ parse_hh_text ["1\tSidney Crosby\tC\tPIT\t99", "not a valid ranking row",
        "2\tJack Hughes\tC\tNJ\t88"]
      = parse_hh_text ["1\tSidney Crosby\tC\tPIT\t99", "2\tJack Hughes\tC\tNJ\t88"] :=
  ⟨by decide,
   c2_hh_malformed_line_skipped ["1\tSidney Crosby\tC\tPIT\t99"]
     ["2\tJack Hughes\tC\tNJ\t88"] "not a valid ranking row" (by decide)⟩

/-- C2 counterexample: the CSV parser is not total over malformed lines.  On
the file whose second data row is the single malformed field
`"not a valid ranking row"`, the parse aborts with an exception
(`row['PLAYER NAME']` is `None`, so `normalize_name` raises) instead of
skipping the row, whereas the same file without that row parses fine. -/
theorem c2_csv_aborts_on_malformed_row :
    parse_fantasyprops_csv "fp_C_x.csv" ["RK", "PLAYER NAME", "TEAM"]
        [["1", "Nathan MacKinnon", "COL"], ["not a valid ranking row"]]
      = .error "AttributeError"
    ∧ parse_fantasyprops_csv "fp_C_x.csv" ["RK", "PLAYER NAME", "TEAM"]
        [["1", "Nathan MacKinnon", "COL"]]
      = .ok [{ name := "Nathan MacKinnon", team := "COL", position := "C",
               overall_rank := 1, position_rank := 1, multi_position := false }] :=
  ⟨rfl, rfl⟩

/-! ## C9: the Yahoo parser -/

/-- A candidate line whose lookahead window has no `TEAM - POS` pair emits
nothing: the loop moves one line on with the same rank counter. -/
theorem yahooGo_skip (lines : List String) (fuel i : Nat) (rank : Int)
    (hc : yahooIsCandidate (pyStrip (lines.getD i "")) = true)
    (hl : yahooLookahead lines i = none) :
    yahooGo lines (fuel + 1) i rank = yahooGo lines fuel (i + 1) rank := by
  simp only [yahooGo, hc, hl, if_true]

/-- A non-candidate line emits nothing. -/
theorem yahooGo_noncand (lines : List String) (fuel i : Nat) (rank : Int)
    (hc : yahooIsCandidate (pyStrip (lines.getD i "")) = false) :
    yahooGo lines (fuel + 1) i rank = yahooGo lines fuel (i + 1) rank := by
  simp only [yahooGo, hc, Bool.false_eq_true, if_false]

/-- The emitted overall ranks are consecutive from the running counter. -/
theorem yahooGo_ranks (lines : List String) :
    ∀ (fuel i : Nat) (rank : Int),
      (yahooGo lines fuel i rank).map (fun r => r.overall_rank)
        = intRange rank (yahooGo lines fuel i rank).length := by
  intro fuel
  induction fuel with
  | zero => intro i rank; rfl
  | succ fuel ih =>
    intro i rank
    by_cases hc : yahooIsCandidate (pyStrip (lines.getD i "")) = true
    · cases hl : yahooLookahead lines i with
      | none => rw [yahooGo_skip lines fuel i rank hc hl]; exact ih (i + 1) rank
      | some tp =>
        cases tp with
        | mk tm pos =>
          simp only [yahooGo, hc, hl, if_true, List.map_cons, List.length_cons, intRange]
          exact congrArg (List.cons rank) (ih (i + 1) (rank + 1))
    · rw [yahooGo_noncand lines fuel i rank (by simpa using hc)]
      exact ih (i + 1) rank

/-- Every emitted record's multi-position flag is exactly the test
`position in ['C', 'LW', 'RW']`. -/
theorem yahooGo_multi (lines : List String) :
    ∀ (fuel i : Nat) (rank : Int) (r : RawRecord), r ∈ yahooGo lines fuel i rank →
      r.multi_position = ["C", "LW", "RW"].contains r.position := by
  intro fuel
  induction fuel with
  | zero => intro i rank r h; cases h
  | succ fuel ih =>
    intro i rank r h
    by_cases hc : yahooIsCandidate (pyStrip (lines.getD i "")) = true
    · cases hl : yahooLookahead lines i with
      | none =>
        rw [yahooGo_skip lines fuel i rank hc hl] at h
        exact ih (i + 1) rank r h
      | some tp =>
        cases tp with
        | mk tm pos =>
          simp only [yahooGo, hc, hl, if_true, List.mem_cons] at h
          rcases h with h | h
          · rw [h]
          · exact ih (i + 1) (rank + 1) r h
    · rw [yahooGo_noncand lines fuel i rank (by simpa using hc)] at h
      exact ih (i + 1) rank r h

/-- C9: the Yahoo parser numbers its emitted records 1, 2, ..., k from a
running counter regardless of any printed rank; a candidate name line with
no `TEAM - POS` pair within the 4-line lookahead window yields no record and
leaves the counter unchanged; and an emitted record is multi-position
eligible exactly when its position is C, LW or RW. -/
theorem c9_yahoo_sequential_ranks (lines : List String) :
    ((parse_yahoo_text lines).map (fun r => r.overall_rank)
        = intRange 1 (parse_yahoo_text lines).length)
    ∧ (∀ r ∈ parse_yahoo_text lines,
        r.multi_position = ["C", "LW", "RW"].contains r.position)
    ∧ (∀ (fuel i : Nat) (rank : Int),
        yahooIsCandidate (pyStrip (lines.getD i "")) = true →
        yahooLookahead lines i = none →
        yahooGo lines (fuel + 1) i rank = yahooGo lines fuel (i + 1) rank) :=
  ⟨yahooGo_ranks lines lines.length 0 1,
   fun r h => yahooGo_multi lines lines.length 0 1 r h,
   fun fuel i rank hc hl => yahooGo_skip lines fuel i rank hc hl⟩

/-- Witness for `c9_yahoo_sequential_ranks`: a concrete three-line file whose line 2
is a candidate with an empty lookahead window. -/
theorem c9_yahoo_sequential_ranks_witness :
    ((parse_yahoo_text ["Connor McDavid", "EDM - C", "Leon Draisaitl"]).map
        (fun r => r.overall_rank) = intRange 1 1)
    ∧ yahooGo ["Connor McDavid", "EDM - C", "Leon Draisaitl"] 1 2 2
        = yahooGo ["Connor McDavid", "EDM - C", "Leon Draisaitl"] 0 3 2 :=
  ⟨((c9_yahoo_sequential_ranks ["Connor McDavid", "EDM - C", "Leon Draisaitl"]).1).trans (by decide),
   (c9_yahoo_sequential_ranks ["Connor McDavid", "EDM - C", "Leon Draisaitl"]).2.2 0 2 2
     (by decide) (by decide)⟩
/-! ## Plurality votes -/

/-- The fold inside `pyMaxKey` lands on a strict plurality winner regardless
of the iteration order it is given. -/
theorem foldl_pyMax_winner (key : String → Nat) (t : String) :
    ∀ (l : List String) (b : String),
      (b = t ∨ t ∈ l) → (∀ s ∈ l, s ≠ t → key s < key t) → (b ≠ t → key b < key t) →
      l.foldl (fun b a => if key b < key a then a else b) b = t := by
  intro l
  induction l with
  | nil =>
    intro b hb _ hbk
    rcases hb with h | h
    · exact h
    · exact absurd h (List.not_mem_nil t)
  | cons a l ih =>
    intro b hb hl hbk
    simp only [List.foldl_cons]
    by_cases hat : a = t
    · subst hat
      by_cases hbt : b = a
      · subst hbt
        rw [if_neg (lt_irrefl _)]
        exact ih b (Or.inl rfl) (fun s hs => hl s (List.mem_cons_of_mem _ hs))
          (fun h => absurd rfl h)
      · rw [if_pos (hbk hbt)]
        exact ih a (Or.inl rfl) (fun s hs => hl s (List.mem_cons_of_mem _ hs))
          (fun h => absurd rfl h)
    · have hak : key a < key t := hl a (List.mem_cons_self a l) hat
      by_cases hba : key b < key a
      · rw [if_pos hba]
        have hbt : b ≠ t := by
          intro h
          subst h
          exact absurd (hba.trans hak) (lt_irrefl _)
        have htl : t ∈ l := by
          rcases hb with h | h
          · exact absurd h hbt
          · rcases List.mem_cons.mp h with h' | h'
            · exact absurd h'.symm hat
            · exact h'
        exact ih a (Or.inr htl) (fun s hs => hl s (List.mem_cons_of_mem _ hs)) (fun _ => hak)
      · rw [if_neg hba]
        have hb' : b = t ∨ t ∈ l := by
          rcases hb with h | h
          · exact Or.inl h
          · rcases List.mem_cons.mp h with h' | h'
            · exact absurd h'.symm hat
            · exact Or.inr h'
        exact ih b hb' (fun s hs => hl s (List.mem_cons_of_mem _ hs)) hbk

/-- A faithful set enumeration plus a strict plurality winner force the
vote's outcome, independently of the enumeration order. -/
theorem voteWith_eq_winner (σ : List String → List String) (vals : List String)
    (dflt t : String) (hv : SetEnum vals (σ vals)) (ht : t ∈ vals)
    (hw : ∀ s ∈ vals, s ≠ t → vals.count s < vals.count t) :
    voteWith σ vals dflt = t := by
  obtain ⟨hnd, hs1, hs2⟩ := hv
  have htσ : t ∈ σ vals := hs2 t ht
  have hvne : vals.isEmpty = false := by
    cases vals with
    | nil => cases ht
    | cons a l => rfl
  rw [voteWith, hvne]
  simp only [Bool.false_eq_true, if_false]
  cases hσ : σ vals with
  | nil => rw [hσ] at htσ; cases htσ
  | cons x xs =>
    rw [hσ] at htσ
    rw [pyMaxKey]
    have hfold : xs.foldl (fun b a => if vals.count b < vals.count a then a else b) x = t :=
      foldl_pyMax_winner (fun s => vals.count s) t xs x
        (by
          rcases List.mem_cons.mp htσ with h | h
          · exact Or.inl h.symm
          · exact Or.inr h)
        (fun s hs hst => hw s (hs1 s (hσ ▸ List.mem_cons_of_mem x hs)) hst)
        (fun hxt => hw x (hs1 x (hσ ▸ List.mem_cons_self x xs)) hxt)
    exact hfold

/-! ## C10: empty team/position groups -/

/-- C10: a group whose members all report an empty team gets the sentinel
team `"UNK"`; a group whose members all report an empty position defaults to
position `"F"`; and a member whose team and position are empty (and whose
ranks are falsy) is excluded from every vote: appending it changes nothing. -/
theorem c10_empty_vote_defaults (σ : List String → List String) (gname : String)
    (players : List RawRecord) (b : RawRecord) :
    ((∀ p ∈ players, p.team = "") → (buildConsensus σ gname players).team = "UNK")
    ∧ ((∀ p ∈ players, p.position = "") → (buildConsensus σ gname players).position = "F")
    ∧ (b.team = "" → b.position = "" → b.overall_rank = 0 → b.position_rank = 0 →
        b.multi_position = false →
        buildConsensus σ gname (players ++ [b]) = buildConsensus σ gname players) := by
  refine ⟨fun h => ?_, fun h => ?_, fun h1 h2 h3 h4 h5 => ?_⟩
  · have hteam : teamsOf players = [] := by
      rw [teamsOf, List.filter_eq_nil_iff]
      intro a ha
      obtain ⟨p, hp, rfl⟩ := List.mem_map.mp ha
      simp [h p hp]
    show voteWith σ (teamsOf players) "UNK" = "UNK"
    rw [hteam]
    rfl
  · have hpos : positionsOf players = [] := by
      rw [positionsOf, List.filter_eq_nil_iff]
      intro a ha
      obtain ⟨p, hp, rfl⟩ := List.mem_map.mp ha
      simp [h p hp]
    show voteWith σ (positionsOf players) "F" = "F"
    rw [hpos]
    rfl
  · rw [buildConsensus, buildConsensus, teamsOf, teamsOf, positionsOf, positionsOf]
    simp [h1, h2, h3, h4, h5]

/-- Witness for `c10_empty_vote_defaults` on concrete one-member groups and
a concrete blank member. -/
theorem c10_empty_vote_defaults_witness :
    (buildConsensus enumKeepFirst "Al Ice" [mkRaw "Al Ice" "" "C" 1 false]).team = "UNK"
    ∧ (buildConsensus enumKeepFirst "Al Ice" [mkRaw "Al Ice" "X" "" 1 false]).position = "F"
    ∧ buildConsensus enumKeepFirst "Sidney Crosby" ([scenCRecA] ++ [mkRaw "Sidney Crosby" "" "" 0 false])
        = buildConsensus enumKeepFirst "Sidney Crosby" [scenCRecA] :=
  ⟨(c10_empty_vote_defaults enumKeepFirst "Al Ice" [mkRaw "Al Ice" "" "C" 1 false]
      default).1 (by decide),
   (c10_empty_vote_defaults enumKeepFirst "Al Ice" [mkRaw "Al Ice" "X" "" 1 false]
      default).2.1 (by decide),
   (c10_empty_vote_defaults enumKeepFirst "Sidney Crosby" [scenCRecA]
      (mkRaw "Sidney Crosby" "" "" 0 false)).2.2 (by decide) (by decide) (by decide)
      (by decide) (by decide)⟩

/-! ## C7: Scenario E -/

/-- C7: a name reported with positions `[F, C, C]` (the F source flagging
multi-position eligibility) gets consensus position `"C"` — the strict
plurality winner, whatever order the set is enumerated in — and
`multi_position_eligible = true` by the OR over members. -/
theorem c7_scenario_e (σ : List String → List String) (gname : String)
    (h : SetEnum ["F", "C", "C"] (σ ["F", "C", "C"])) :
    (buildConsensus σ gname [scenERecF, scenERecC1, scenERecC2]).position = "C"
    ∧ (buildConsensus σ gname [scenERecF, scenERecC1, scenERecC2]).multi_position_eligible
        = true := by
  constructor
  · show voteWith σ (positionsOf [scenERecF, scenERecC1, scenERecC2]) "F" = "C"
    have hpos : positionsOf [scenERecF, scenERecC1, scenERecC2] = ["F", "C", "C"] := by decide
    rw [hpos]
    exact voteWith_eq_winner σ ["F", "C", "C"] "F" "C" h (by decide) (by decide)
  · rfl

/-- Witness for `c7_scenario_e` with the first-occurrence set
enumeration. -/
theorem c7_scenario_e_witness :
    SetEnum ["F", "C", "C"] (enumKeepFirst ["F", "C", "C"])
    ∧ (buildConsensus enumKeepFirst "Sidney Crosby"
        [scenERecF, scenERecC1, scenERecC2]).position = "C"
    ∧ (buildConsensus enumKeepFirst "Sidney Crosby"
        [scenERecF, scenERecC1, scenERecC2]).multi_position_eligible = true :=
  ⟨by decide,
   (c7_scenario_e enumKeepFirst "Sidney Crosby"
     (by decide)).1,
   (c7_scenario_e enumKeepFirst "Sidney Crosby"
     (by decide)).2⟩

/-! ## C5: the average rule -/

/-- The integer tenths computation agrees with exact round-half-even of the
rational quotient. -/
theorem rheDiv_eq_roundHalfEvenQ (n : ℤ) (d : ℕ) (hd : 0 < d) :
    rheDiv n (d : ℤ) = roundHalfEvenQ ((n : ℚ) / (d : ℚ)) := by
  have hdq : (0 : ℚ) < (d : ℚ) := by exact_mod_cast hd
  have hfl : ⌊(n : ℚ) / (d : ℚ)⌋ = n / (d : ℤ) := Rat.floor_intCast_div_natCast n d
  have hmod : n % (d : ℤ) = n - (d : ℤ) * (n / (d : ℤ)) := Int.emod_def n (d : ℤ)
  have hfrac : (n : ℚ) / (d : ℚ) - ((n / (d : ℤ) : ℤ) : ℚ)
      = ((n % (d : ℤ) : ℤ) : ℚ) / (d : ℚ) := by
    rw [hmod]
    push_cast
    field_simp
  have hlt : ((n : ℚ) / (d : ℚ) - ((n / (d : ℤ) : ℤ) : ℚ) < 1 / 2)
      ↔ (2 * (n % (d : ℤ)) < (d : ℤ)) := by
    rw [hfrac, div_lt_div_iff₀ hdq (by norm_num : (0 : ℚ) < 2), one_mul,
      show ((n % (d : ℤ) : ℤ) : ℚ) * 2 = ((2 * (n % (d : ℤ)) : ℤ) : ℚ) by push_cast; ring]
    exact Int.cast_lt
  have hgt : ((1 : ℚ) / 2 < (n : ℚ) / (d : ℚ) - ((n / (d : ℤ) : ℤ) : ℚ))
      ↔ ((d : ℤ) < 2 * (n % (d : ℤ))) := by
    rw [hfrac, div_lt_div_iff₀ (by norm_num : (0 : ℚ) < 2) hdq, one_mul,
      show ((n % (d : ℤ) : ℤ) : ℚ) * 2 = ((2 * (n % (d : ℤ)) : ℤ) : ℚ) by push_cast; ring]
    exact Int.cast_lt
  rw [roundHalfEvenQ, rheDiv, hfl]
  simp only [hlt, hgt]

/-- `avgX10` means: sentinel `999` for an empty list, else the rounded
arithmetic mean. -/
theorem rankValue_avgX10 (ranks : List Int) :
    rankValue (avgX10 ranks) = if ranks.isEmpty then 999 else specRound1 (meanQ ranks) := by
  cases hr : ranks.isEmpty with
  | true =>
    rw [avgX10, hr, if_pos rfl, if_pos rfl, rankValue]
    norm_num
  | false =>
    have hne : ranks ≠ [] := by
      cases ranks with
      | nil => cases hr
      | cons a l => simp
    have hlen : 0 < ranks.length := List.length_pos.mpr hne
    rw [avgX10, hr]
    simp only [Bool.false_eq_true, if_false]
    rw [rankValue, specRound1, meanQ,
      rheDiv_eq_roundHalfEvenQ (10 * ranks.sum) ranks.length hlen,
      show ((10 * ranks.sum : ℤ) : ℚ) / ((ranks.length : ℕ) : ℚ)
          = 10 * (((ranks.sum : ℤ) : ℚ) / ((ranks.length : ℕ) : ℚ)) by push_cast; ring]

/-- C5: a group's consensus `overallRank` is the arithmetic mean of the
members' nonzero (truthy) overall ranks, rounded to one decimal place;
a group with no valid values gets the sentinel 999; the same rule holds for
`positionRank`; and overall ranks 5 and 7 average to 6.0 (Scenario C). -/
theorem c5_average_rule (σ : List String → List String) (gname : String)
    (players : List RawRecord) :
    (rankValue (buildConsensus σ gname players).overall_rank_x10
      = (if ((players.map (fun p => p.overall_rank)).filter (fun r => r != 0)).isEmpty
         then 999
         else specRound1 (meanQ ((players.map (fun p => p.overall_rank)).filter (fun r => r != 0)))))
    ∧ (rankValue (buildConsensus σ gname players).position_rank_x10
      = (if ((players.map (fun p => p.position_rank)).filter (fun r => r != 0)).isEmpty
         then 999
         else specRound1 (meanQ ((players.map (fun p => p.position_rank)).filter (fun r => r != 0)))))
    ∧ rankValue (buildConsensus σ "Sidney Crosby" [scenCRecA, scenCRecB]).overall_rank_x10 = 6 := by
  refine ⟨rankValue_avgX10 _, rankValue_avgX10 _, ?_⟩
  have h60 : (buildConsensus σ "Sidney Crosby" [scenCRecA, scenCRecB]).overall_rank_x10 = 60 := rfl
  rw [h60, rankValue]
  norm_num

/-! ## Indexed lists: general lemmas -/

theorem pyEnum_length {α : Type} : ∀ (i : Nat) (l : List α), (pyEnum i l).length = l.length
  | _, [] => rfl
  | i, _ :: l => congrArg Nat.succ (pyEnum_length (i + 1) l)

theorem pyEnum_map_fst {α : Type} :
    ∀ (i : Nat) (l : List α), (pyEnum i l).map Prod.fst = List.range' i l.length
  | _, [] => rfl
  | i, _ :: l => by
    rw [pyEnum, List.map_cons, pyEnum_map_fst (i + 1) l, List.length_cons, List.range'_succ]

theorem pyEnum_map_snd_fun {α β : Type} (g : α → β) :
    ∀ (i : Nat) (l : List α), (pyEnum i l).map (fun ip => g ip.2) = l.map g
  | _, [] => rfl
  | i, a :: l => by
    rw [pyEnum, List.map_cons, List.map_cons, pyEnum_map_snd_fun g (i + 1) l]

theorem pyEnum_getElem? {α : Type} :
    ∀ (i : Nat) (l : List α) (k : Nat), (pyEnum i l)[k]? = (l[k]?).map (fun a => (i + k, a))
  | i, [], k => by cases k <;> rfl
  | i, a :: l, 0 => by
    rw [pyEnum, List.getElem?_cons_zero, List.getElem?_cons_zero, Option.map_some', Nat.add_zero]
  | i, a :: l, k + 1 => by
    rw [pyEnum, List.getElem?_cons_succ, List.getElem?_cons_succ,
      pyEnum_getElem? (i + 1) l k]
    cases l[k]? with
    | none => rfl
    | some b =>
      show some (i + 1 + k, b) = some (i + (k + 1), b)
      rw [Nat.add_assoc, Nat.add_comm 1 k]

theorem pyEnum_fst_nodup {α : Type} (i : Nat) (l : List α) :
    ((pyEnum i l).map Prod.fst).Nodup := by
  rw [pyEnum_map_fst]
  exact List.nodup_range' i l.length

/-- In a list of index-tagged values with pairwise-distinct tags, mapping
every element to the position found for its tag enumerates 0, 1, ..., in
list order. -/
theorem map_findIdx_fst {α : Type} :
    ∀ (s : List (Nat × α)), (s.map Prod.fst).Nodup →
      s.map (fun ip => s.findIdx (fun jp => jp.1 == ip.1)) = List.range' 0 s.length := by
  intro s
  induction s with
  | nil => intro _; rfl
  | cons x t ih =>
    intro hnd
    rw [List.map_cons] at hnd
    have hx : x.1 ∉ t.map Prod.fst := (List.nodup_cons.mp hnd).1
    have hnd' : (t.map Prod.fst).Nodup := (List.nodup_cons.mp hnd).2
    rw [List.map_cons]
    have hhead : (x :: t).findIdx (fun jp => jp.1 == x.1) = 0 := by
      rw [List.findIdx_cons]
      simp
    have htail : t.map (fun ip => (x :: t).findIdx (fun jp => jp.1 == ip.1))
        = t.map (fun ip => 1 + t.findIdx (fun jp => jp.1 == ip.1)) := by
      apply List.map_congr_left
      intro ip hip
      rw [List.findIdx_cons]
      have hne : (x.1 == ip.1) = false :=
        beq_eq_false_iff_ne.mpr (fun h => hx (h ▸ List.mem_map_of_mem Prod.fst hip))
      rw [hne, cond_false, Nat.add_comm]
    rw [hhead, htail,
      show t.map (fun ip => 1 + t.findIdx (fun jp => jp.1 == ip.1))
          = (t.map (fun ip => t.findIdx (fun jp => jp.1 == ip.1))).map (fun n => 1 + n) by
        rw [List.map_map]; rfl,
      ih hnd', List.map_add_range' 1 0 t.length 1, List.length_cons, List.range'_succ]

/-- Mapping each element of an index-tagged list (with distinct tags) to one
plus its position in the stable-sorted list is a permutation of
`1, ..., length`. -/
theorem map_one_add_findIdx_perm {α : Type} (key : α → Int) (bucket : List (Nat × α))
    (hnd : (bucket.map Prod.fst).Nodup) :
    List.Perm
      (bucket.map (fun ip => 1 + (pySortByKey key bucket).findIdx (fun jp => jp.1 == ip.1)))
      (List.range' 1 bucket.length) := by
  have hperm : List.Perm (pySortByKey key bucket) bucket :=
    List.perm_insertionSort _ bucket
  have hnd' : ((pySortByKey key bucket).map Prod.fst).Nodup :=
    ((hperm.map Prod.fst).nodup_iff).mpr hnd
  have h1 : List.Perm
      (bucket.map (fun ip => 1 + (pySortByKey key bucket).findIdx (fun jp => jp.1 == ip.1)))
      ((pySortByKey key bucket).map
        (fun ip => 1 + (pySortByKey key bucket).findIdx (fun jp => jp.1 == ip.1))) :=
    (hperm.symm).map _
  refine h1.trans ?_
  rw [show (pySortByKey key bucket).map
        (fun ip => 1 + (pySortByKey key bucket).findIdx (fun jp => jp.1 == ip.1))
      = ((pySortByKey key bucket).map
          (fun ip => (pySortByKey key bucket).findIdx (fun jp => jp.1 == ip.1))).map
            (fun n => 1 + n) by rw [List.map_map]; rfl,
    map_findIdx_fst _ hnd', List.map_add_range' 1 0 _ 1, hperm.length_eq]

/-- In a list sorted by the stable order with pairwise-distinct tags, the
position found for a member's tag counts the members strictly below it. -/
theorem sorted_findIdx_eq_countP {α : Type} (key : α → Int) :
    ∀ (s : List (Nat × α)), List.Sorted (stableLe key) s → (s.map Prod.fst).Nodup →
      ∀ x ∈ s, s.findIdx (fun y => y.1 == x.1)
        = s.countP (fun y => decide (stableLt key y x)) := by
  intro s
  induction s with
  | nil => intro _ _ x hx; cases hx
  | cons a t ih =>
    intro hs hnd x hx
    have hsa : ∀ b ∈ t, stableLe key a b := (List.sorted_cons.mp hs).1
    have hst : List.Sorted (stableLe key) t := (List.sorted_cons.mp hs).2
    rw [List.map_cons] at hnd
    have ha : a.1 ∉ t.map Prod.fst := (List.nodup_cons.mp hnd).1
    have hnd' : (t.map Prod.fst).Nodup := (List.nodup_cons.mp hnd).2
    have hnotlt : ∀ y, stableLe key a y → ¬stableLt key y a := by
      intro y hle hlt
      rcases hle with h | ⟨h1, h2⟩
      · rcases hlt with h' | ⟨h', _⟩
        · exact absurd (h.trans h') (lt_irrefl _)
        · exact absurd (h' ▸ h) (lt_irrefl _)
      · rcases hlt with h' | ⟨_, h2'⟩
        · exact absurd (h1 ▸ h') (lt_irrefl _)
        · exact absurd (Nat.lt_of_lt_of_le h2' h2) (lt_irrefl _)
    rcases List.mem_cons.mp hx with heq | hxt
    · rw [heq, List.findIdx_cons]
      simp only [beq_self_eq_true, cond_true]
      have hhead : decide (stableLt key a a) = false := by
        apply decide_eq_false
        exact hnotlt a (Or.inr ⟨rfl, Nat.le_refl _⟩)
      rw [List.countP_cons, hhead]
      simp only [Bool.false_eq_true, if_false, Nat.add_zero]
      symm
      rw [List.countP_eq_zero]
      intro y hy
      simp only [decide_eq_true_eq]
      exact hnotlt y (hsa y hy)
    · have hne : a.1 ≠ x.1 := fun h => ha (h ▸ List.mem_map_of_mem Prod.fst hxt)
      rw [List.findIdx_cons, List.countP_cons]
      have hbeq : (a.1 == x.1) = false := beq_eq_false_iff_ne.mpr hne
      have hlt : decide (stableLt key a x) = true := by
        apply decide_eq_true
        rcases hsa x hxt with h | ⟨h1, h2⟩
        · exact Or.inl h
        · exact Or.inr ⟨h1, Nat.lt_of_le_of_ne h2 hne⟩
      rw [hbeq, cond_false, hlt, if_pos rfl, ih hst hnd' x hxt]

/-! ## C4: the position-rank calculator -/

/-- C4: `calculate_position_ranks` is a pure relabeling: the output has the
same length, each output record equals the input record at the same index
except for `position_rank`, and the new `position_rank` is the record's
1-based index in its position partition under "overall rank, then encounter
order" — stated as 1 plus the number of same-position records strictly below
it in that order. -/
theorem c4_position_rank_relabeling (players : List RawRecord) :
    ((calculate_position_ranks players).length = players.length)
    ∧ (∀ i, i < players.length →
        (calculate_position_ranks players).getD i default
          = { players.getD i default with
              position_rank :=
                1 + (((pyEnum 0 players).countP (fun jp =>
                  jp.2.position == (players.getD i default).position
                    && decide (stableLt (fun r => r.overall_rank) jp
                        (i, players.getD i default)))) : Int) }) := by
  constructor
  · rw [calculate_position_ranks, List.length_map, pyEnum_length]
  · intro i hi
    have hpi : players[i]? = some (players.getD i default) := by
      rw [List.getD_eq_getElem?_getD, List.getElem?_eq_getElem hi]
      rfl
    set pi := players.getD i default with hpidef
    have hmem : (i, pi) ∈ pyEnum 0 players := by
      have := pyEnum_getElem? 0 players i
      rw [hpi] at this
      simp only [Nat.zero_add, Option.map_some'] at this
      exact List.get?_mem (by rw [List.get?_eq_getElem?]; exact this)
    have hcalc : (calculate_position_ranks players)[i]?
        = some ({ pi with position_rank :=
            1 + (((pySortByKey (fun r => r.overall_rank)
                (rawBucket (pyEnum 0 players) pi.position)).findIdx
              (fun jp => jp.1 == i)) : Int) }) := by
      rw [calculate_position_ranks, List.getElem?_map, pyEnum_getElem? 0 players i, hpi]
      simp only [Nat.zero_add, Option.map_some']
    -- identify the found index with the strict count
    have hbut : ∀ jp ∈ rawBucket (pyEnum 0 players) pi.position, True := fun _ _ => trivial
    have hbnd : ((rawBucket (pyEnum 0 players) pi.position).map Prod.fst).Nodup := by
      have hsub : List.Sublist
          ((rawBucket (pyEnum 0 players) pi.position).map Prod.fst)
          ((pyEnum 0 players).map Prod.fst) :=
        (List.filter_sublist (pyEnum 0 players)).map Prod.fst
      exact (pyEnum_fst_nodup 0 players).sublist hsub
    have hperm : List.Perm
        (pySortByKey (fun r => r.overall_rank) (rawBucket (pyEnum 0 players) pi.position))
        (rawBucket (pyEnum 0 players) pi.position) :=
      List.perm_insertionSort _ _
    have hsnd : ((pySortByKey (fun r => r.overall_rank)
        (rawBucket (pyEnum 0 players) pi.position)).map Prod.fst).Nodup :=
      ((hperm.map Prod.fst).nodup_iff).mpr hbnd
    have hmemb : (i, pi) ∈ rawBucket (pyEnum 0 players) pi.position := by
      rw [rawBucket, List.mem_filter]
      exact ⟨hmem, by simp⟩
    have hmems : (i, pi) ∈ pySortByKey (fun r => r.overall_rank)
        (rawBucket (pyEnum 0 players) pi.position) := hperm.mem_iff.mpr hmemb
    have hsorted : List.Sorted (stableLe (fun r : RawRecord => r.overall_rank))
        (pySortByKey (fun r => r.overall_rank) (rawBucket (pyEnum 0 players) pi.position)) :=
      List.sorted_insertionSort _ _
    have hfind := sorted_findIdx_eq_countP (fun r : RawRecord => r.overall_rank) _
      hsorted hsnd (i, pi) hmems
    have hcount : (pySortByKey (fun r : RawRecord => r.overall_rank)
          (rawBucket (pyEnum 0 players) pi.position)).countP
        (fun y => decide (stableLt (fun r : RawRecord => r.overall_rank) y (i, pi)))
        = (pyEnum 0 players).countP (fun jp =>
            jp.2.position == pi.position
              && decide (stableLt (fun r : RawRecord => r.overall_rank) jp (i, pi))) := by
      rw [hperm.countP_eq, rawBucket, List.countP_filter]
      apply List.countP_congr
      intro jp _
      rw [Bool.and_comm]
    rw [List.getD_eq_getElem?_getD, hcalc]
    show ({ pi with position_rank :=
        1 + (((pySortByKey (fun r : RawRecord => r.overall_rank)
            (rawBucket (pyEnum 0 players) pi.position)).findIdx
          (fun jp : Nat × RawRecord => jp.1 == i)) : Int) }) = _
    rw [hfind, hcount]

/-- Witness for `c4_position_rank_relabeling` at a concrete three-record
pool and index 0. -/
theorem c4_position_rank_relabeling_witness :
    (calculate_position_ranks
        [mkRaw "A" "X" "C" 9 false, mkRaw "B" "X" "D" 3 false,
         mkRaw "C" "X" "C" 4 false]).getD 0 default
      = { (([mkRaw "A" "X" "C" 9 false, mkRaw "B" "X" "D" 3 false,
           mkRaw "C" "X" "C" 4 false] : List RawRecord).getD 0 default) with
          position_rank :=
            1 + (((pyEnum 0 ([mkRaw "A" "X" "C" 9 false, mkRaw "B" "X" "D" 3 false,
                mkRaw "C" "X" "C" 4 false] : List RawRecord)).countP (fun jp =>
              jp.2.position == (([mkRaw "A" "X" "C" 9 false, mkRaw "B" "X" "D" 3 false,
                  mkRaw "C" "X" "C" 4 false] : List RawRecord).getD 0 default).position
                && decide (stableLt (fun r => r.overall_rank) jp
                    (0, ([mkRaw "A" "X" "C" 9 false, mkRaw "B" "X" "D" 3 false,
                      mkRaw "C" "X" "C" 4 false] : List RawRecord).getD 0 default)))) : Int) } :=
  (c4_position_rank_relabeling
    [mkRaw "A" "X" "C" 9 false, mkRaw "B" "X" "D" 3 false,
     mkRaw "C" "X" "C" 4 false]).2 0 (by decide)

/-! ## The consensus pipeline: rank assignment lemmas -/

theorem assignOverallRanks_length :
    ∀ (s : Nat) (l : List ConsensusRecord), (assignOverallRanks s l).length = l.length
  | _, [] => rfl
  | s, _ :: l => congrArg Nat.succ (assignOverallRanks_length (s + 1) l)

theorem assignOverallRanks_map_cor :
    ∀ (s : Nat) (l : List ConsensusRecord),
      (assignOverallRanks s l).map (fun c => c.consensus_overall_rank)
        = List.range' s l.length
  | _, [] => rfl
  | s, c :: l => by
    rw [assignOverallRanks, List.map_cons, assignOverallRanks_map_cor (s + 1) l,
      List.length_cons, List.range'_succ]

theorem assignOverallRanks_getElem? :
    ∀ (s : Nat) (l : List ConsensusRecord) (k : Nat),
      (assignOverallRanks s l)[k]?
        = (l[k]?).map (fun c => { c with consensus_overall_rank := s + k })
  | s, [], k => by cases k <;> rfl
  | s, c :: l, 0 => by
    rw [assignOverallRanks, List.getElem?_cons_zero, List.getElem?_cons_zero,
      Option.map_some', Nat.add_zero]
  | s, c :: l, k + 1 => by
    rw [assignOverallRanks, List.getElem?_cons_succ, List.getElem?_cons_succ,
      assignOverallRanks_getElem? (s + 1) l k]
    cases l[k]? with
    | none => rfl
    | some b =>
      show some _ = some _
      rw [Nat.add_assoc, Nat.add_comm 1 k]

theorem assignPositionRanks_length (l : List ConsensusRecord) :
    (assignPositionRanks l).length = l.length := by
  rw [assignPositionRanks, List.length_map, pyEnum_length]

theorem assignPositionRanks_map_cor (l : List ConsensusRecord) :
    (assignPositionRanks l).map (fun c => c.consensus_overall_rank)
      = l.map (fun c => c.consensus_overall_rank) := by
  rw [assignPositionRanks, List.map_map]
  exact pyEnum_map_snd_fun (fun c => c.consensus_overall_rank) 0 l

theorem assignPositionRanks_getElem? (l : List ConsensusRecord) (k : Nat) :
    (assignPositionRanks l)[k]?
      = (l[k]?).map (fun c =>
          { c with consensus_position_rank :=
              1 + ((pySortByKey (fun c => c.overall_rank_x10)
                  (consBucket (pyEnum 0 l) c.position)).findIdx
                (fun jp => jp.1 == k)) }) := by
  rw [assignPositionRanks, List.getElem?_map, pyEnum_getElem? 0 l k]
  cases l[k]? with
  | none => rfl
  | some b =>
    show some _ = some _
    rw [Nat.zero_add]

theorem rankConsensus_length (cps : List ConsensusRecord) :
    (rankConsensus cps).length = cps.length := by
  rw [rankConsensus, assignPositionRanks_length, assignOverallRanks_length,
    List.length_map, pySortByKey, List.length_insertionSort, pyEnum_length]

theorem rankConsensus_map_cor (cps : List ConsensusRecord) :
    (rankConsensus cps).map (fun c => c.consensus_overall_rank)
      = List.range' 1 cps.length := by
  rw [rankConsensus, assignPositionRanks_map_cor, assignOverallRanks_map_cor,
    List.length_map, pySortByKey, List.length_insertionSort, pyEnum_length]

theorem rankConsensus_getD_cor (cps : List ConsensusRecord) (i : Nat) (h : i < cps.length) :
    ((rankConsensus cps).getD i default).consensus_overall_rank = i + 1 := by
  have hlen : i < ((pySortByKey (fun c => c.overall_rank_x10) (pyEnum 0 cps)).map
      Prod.snd).length := by
    rw [List.length_map, pySortByKey, List.length_insertionSort, pyEnum_length]
    exact h
  rw [rankConsensus, List.getD_eq_getElem?_getD, assignPositionRanks_getElem?,
    assignOverallRanks_getElem?, List.getElem?_eq_getElem hlen, Option.map_some',
    Option.map_some', Option.getD_some]
  show (1 : Nat) + i = i + 1
  rw [Nat.add_comm]

/-- The position-bucket projection of `assignPositionRanks` output, as the
bucket's own index-to-sorted-position map. -/
theorem assignPositionRanks_filter_map (l : List ConsensusRecord) (p : String) :
    ((assignPositionRanks l).filter (fun c => c.position == p)).map
      (fun c => c.consensus_position_rank)
    = (consBucket (pyEnum 0 l) p).map (fun ip =>
        1 + ((pySortByKey (fun c => c.overall_rank_x10) (consBucket (pyEnum 0 l) p)).findIdx
          (fun jp => jp.1 == ip.1))) := by
  simp only [assignPositionRanks]
  rw [List.filter_map, List.map_map]
  show ((consBucket (pyEnum 0 l) p).map _) = _
  apply List.map_congr_left
  intro ip hip
  have hp : ip.2.position = p := by
    have hmem := (List.mem_filter.mp hip).2
    exact eq_of_beq hmem
  show 1 + ((pySortByKey (fun c => c.overall_rank_x10)
      (consBucket (pyEnum 0 l) ip.2.position)).findIdx (fun jp => jp.1 == ip.1)) = _
  rw [hp]

theorem assignPositionRanks_filter_length (l : List ConsensusRecord) (p : String) :
    ((assignPositionRanks l).filter (fun c => c.position == p)).length
      = (consBucket (pyEnum 0 l) p).length := by
  simp only [assignPositionRanks]
  rw [List.filter_map, List.length_map]
  rfl

/-- The per-position consensus ranks of `rankConsensus` output are a
permutation of `1..M` for every position bucket. -/
theorem rankConsensus_bucket_perm (cps : List ConsensusRecord) (p : String) :
    List.Perm
      (((rankConsensus cps).filter (fun c => c.position == p)).map
        (fun c => c.consensus_position_rank))
      (List.range' 1 ((rankConsensus cps).filter (fun c => c.position == p)).length) := by
  rw [rankConsensus, assignPositionRanks_filter_map, assignPositionRanks_filter_length]
  apply map_one_add_findIdx_perm
  have hsub : List.Sublist
      ((consBucket (pyEnum 0 (assignOverallRanks 1
          ((pySortByKey (fun c => c.overall_rank_x10) (pyEnum 0 cps)).map Prod.snd))) p).map
        Prod.fst)
      ((pyEnum 0 (assignOverallRanks 1
          ((pySortByKey (fun c => c.overall_rank_x10) (pyEnum 0 cps)).map Prod.snd))).map
        Prod.fst) :=
    (List.filter_sublist _).map Prod.fst
  exact (pyEnum_fst_nodup 0 _).sublist hsub

/-! ## Grouping by name -/

theorem addToGroups_fst_mem (r : RawRecord) (n : String) :
    ∀ (acc : List (String × List RawRecord)),
      (n ∈ (addToGroups acc r).map Prod.fst ↔ n ∈ acc.map Prod.fst ∨ n = r.name)
  | [] => by simp [addToGroups]
  | (k, rs) :: rest => by
    by_cases hk : (k == r.name) = true
    · rw [addToGroups, if_pos hk]
      have : k = r.name := eq_of_beq hk
      simp [this]
      tauto
    · rw [addToGroups, if_neg hk]
      simp only [List.map_cons, List.mem_cons]
      rw [addToGroups_fst_mem r n rest]
      tauto

theorem addToGroups_fst_nodup (r : RawRecord) :
    ∀ (acc : List (String × List RawRecord)),
      (acc.map Prod.fst).Nodup → ((addToGroups acc r).map Prod.fst).Nodup
  | [] => by
    intro _
    simp [addToGroups]
  | (k, rs) :: rest => by
    intro hnd
    simp only [List.map_cons, List.nodup_cons] at hnd
    by_cases hk : (k == r.name) = true
    · rw [addToGroups, if_pos hk]
      simp only [List.map_cons, List.nodup_cons]
      exact hnd
    · rw [addToGroups, if_neg hk]
      simp only [List.map_cons, List.nodup_cons]
      constructor
      · rw [addToGroups_fst_mem r k rest]
        rintro (h | h)
        · exact hnd.1 h
        · exact hk (beq_iff_eq.mpr h)
      · exact addToGroups_fst_nodup r rest hnd.2

theorem addToGroups_snd_ne (r : RawRecord) :
    ∀ (acc : List (String × List RawRecord)),
      (∀ g ∈ acc, g.2 ≠ []) → ∀ g ∈ addToGroups acc r, g.2 ≠ []
  | [] => by
    intro _ g hg
    rw [addToGroups] at hg
    rcases List.mem_singleton.mp hg with rfl
    simp
  | (k, rs) :: rest => by
    intro hall g hg
    by_cases hk : (k == r.name) = true
    · rw [addToGroups, if_pos hk] at hg
      rcases List.mem_cons.mp hg with rfl | h
      · simp
      · exact hall g (List.mem_cons_of_mem _ h)
    · rw [addToGroups, if_neg hk] at hg
      rcases List.mem_cons.mp hg with rfl | h
      · exact hall (k, rs) (List.mem_cons_self _ _)
      · exact addToGroups_snd_ne r rest
          (fun g' hg' => hall g' (List.mem_cons_of_mem _ hg')) g h

theorem foldl_addToGroups_fst_mem (n : String) :
    ∀ (l : List RawRecord) (acc : List (String × List RawRecord)),
      (n ∈ ((l.foldl addToGroups acc).map Prod.fst)
        ↔ n ∈ acc.map Prod.fst ∨ n ∈ l.map (fun r => r.name))
  | [] => by
    intro acc
    simp
  | r :: l => by
    intro acc
    rw [List.foldl_cons, foldl_addToGroups_fst_mem n l (addToGroups acc r),
      addToGroups_fst_mem r n acc]
    simp only [List.map_cons, List.mem_cons]
    tauto

theorem foldl_addToGroups_fst_nodup :
    ∀ (l : List RawRecord) (acc : List (String × List RawRecord)),
      (acc.map Prod.fst).Nodup → ((l.foldl addToGroups acc).map Prod.fst).Nodup
  | [] => fun _ h => h
  | r :: l => by
    intro acc hnd
    rw [List.foldl_cons]
    exact foldl_addToGroups_fst_nodup l (addToGroups acc r) (addToGroups_fst_nodup r acc hnd)

theorem foldl_addToGroups_snd_ne :
    ∀ (l : List RawRecord) (acc : List (String × List RawRecord)),
      (∀ g ∈ acc, g.2 ≠ []) → ∀ g ∈ l.foldl addToGroups acc, g.2 ≠ []
  | [] => fun _ h => h
  | r :: l => by
    intro acc hall
    rw [List.foldl_cons]
    exact foldl_addToGroups_snd_ne l (addToGroups acc r) (addToGroups_snd_ne r acc hall)

theorem groupByName_snd_ne (xs : List RawRecord) : ∀ g ∈ groupByName xs, g.2 ≠ [] :=
  foldl_addToGroups_snd_ne xs [] (fun g hg => absurd hg (List.not_mem_nil g))

/-- The number of groups is the number of distinct normalized names. -/
theorem groupByName_length (xs : List RawRecord) :
    (groupByName xs).length = ((xs.map (fun r => r.name)).dedup).length := by
  have h1 : ((groupByName xs).map Prod.fst).Nodup :=
    foldl_addToGroups_fst_nodup xs [] List.nodup_nil
  have h2 : ((xs.map (fun r => r.name)).dedup).Nodup := List.nodup_dedup _
  have h3 : List.Perm ((groupByName xs).map Prod.fst) ((xs.map (fun r => r.name)).dedup) :=
    (List.perm_ext_iff_of_nodup h1 h2).mpr (fun n => by
      rw [List.mem_dedup, groupByName, foldl_addToGroups_fst_mem]
      simp)
  have h4 := h3.length_eq
  rwa [List.length_map] at h4

/-- No group is dropped by the vacuous `if not players: continue` guard. -/
theorem groupByName_filter_all (xs : List RawRecord) :
    (groupByName xs).filter (fun g => !g.2.isEmpty) = groupByName xs := by
  rw [List.filter_eq_self]
  intro g hg
  have := groupByName_snd_ne xs g hg
  cases hsnd : g.2 with
  | nil => exact absurd hsnd this
  | cons a l => rfl

/-! ## C1: dense contiguous rank permutations -/

/-- C1: the output's `consensus_overall_rank` values are exactly
`1, ..., N` in order (N = number of distinct normalized names in the pool,
each group being nonempty), and within every position bucket the
`consensus_position_rank` values are a permutation of `1..M` (M = bucket
size): dense, contiguous, starting at 1, no duplicates, no gaps. -/
theorem c1_rank_permutations (σ : List String → List String) (xs : List RawRecord) :
    ((create_consensus_ranking σ xs).map (fun c => c.consensus_overall_rank)
        = List.range' 1 ((xs.map (fun r => r.name)).dedup.length))
    ∧ (∀ p : String,
        List.Perm
          (((create_consensus_ranking σ xs).filter (fun c => c.position == p)).map
            (fun c => c.consensus_position_rank))
          (List.range' 1
            (((create_consensus_ranking σ xs).filter (fun c => c.position == p)).length))) := by
  constructor
  · rw [create_consensus_ranking, rankConsensus_map_cor, List.length_map,
      groupByName_filter_all, groupByName_length]
  · intro p
    rw [create_consensus_ranking]
    exact rankConsensus_bucket_perm _ p

/-! ## C6: final list order -/

/-- C6: after the aggregator finishes — including the subsequent
per-position bucket passes — the returned list is still in ascending
`consensus_overall_rank` order: the record at index `i` carries
`consensus_overall_rank = i + 1`. -/
theorem c6_output_order (σ : List String → List String) (xs : List RawRecord) (i : Nat)
    (h : i < (create_consensus_ranking σ xs).length) :
    ((create_consensus_ranking σ xs).getD i default).consensus_overall_rank = i + 1 := by
  rw [create_consensus_ranking] at h ⊢
  apply rankConsensus_getD_cor
  rwa [rankConsensus_length] at h

/-- Witness for `c6_output_order` on a concrete two-name pool, at both
indices. -/
theorem c6_output_order_witness :
    (0 < (create_consensus_ranking enumKeepFirst strictPool).length
      ∧ ((create_consensus_ranking enumKeepFirst strictPool).getD 0
          default).consensus_overall_rank = 0 + 1)
    ∧ (1 < (create_consensus_ranking enumKeepFirst strictPool).length
      ∧ ((create_consensus_ranking enumKeepFirst strictPool).getD 1
          default).consensus_overall_rank = 1 + 1) :=
  ⟨⟨by decide, c6_output_order enumKeepFirst strictPool 0 (by decide)⟩,
   ⟨by decide, c6_output_order enumKeepFirst strictPool 1 (by decide)⟩⟩

/-! ## C3: two-run determinism -/

/-- Two faithful set enumerations yield the same vote whenever the vote list
is empty or has a strict plurality winner. -/
theorem voteWith_congr (σ₁ σ₂ : List String → List String) (vals : List String) (dflt : String)
    (h₁ : SetEnum vals (σ₁ vals)) (h₂ : SetEnum vals (σ₂ vals)) (hw : StrictWinner vals) :
    voteWith σ₁ vals dflt = voteWith σ₂ vals dflt := by
  cases hv : vals with
  | nil => rfl
  | cons a l =>
    rw [hv] at h₁ h₂ hw
    obtain ⟨t, ht, hwt⟩ := hw (List.cons_ne_nil a l)
    rw [voteWith_eq_winner σ₁ (a :: l) dflt t h₁ ht hwt,
      voteWith_eq_winner σ₂ (a :: l) dflt t h₂ ht hwt]

/-- C3 (amended): the pipeline is a pure function of the input pool and the
set-enumeration order; two runs agree whenever, in every name group, the
team and position vote lists each have a strict plurality winner (or are
empty) — the tied case genuinely depends on the enumeration order. -/
theorem c3_two_run_agreement (σ₁ σ₂ : List String → List String) (xs : List RawRecord)
    (hset : ∀ g ∈ groupByName xs,
      SetEnum (teamsOf g.2) (σ₁ (teamsOf g.2)) ∧ SetEnum (teamsOf g.2) (σ₂ (teamsOf g.2))
        ∧ SetEnum (positionsOf g.2) (σ₁ (positionsOf g.2))
        ∧ SetEnum (positionsOf g.2) (σ₂ (positionsOf g.2)))
    (hwin : ∀ g ∈ groupByName xs,
      StrictWinner (teamsOf g.2) ∧ StrictWinner (positionsOf g.2)) :
    create_consensus_ranking σ₁ xs = create_consensus_ranking σ₂ xs := by
  rw [create_consensus_ranking, create_consensus_ranking]
  refine congrArg rankConsensus (List.map_congr_left ?_)
  intro g hg
  have hg' : g ∈ groupByName xs := List.mem_of_mem_filter hg
  obtain ⟨hs1, hs2, hs3, hs4⟩ := hset g hg'
  obtain ⟨hw1, hw2⟩ := hwin g hg'
  rw [buildConsensus, buildConsensus,
    voteWith_congr σ₁ σ₂ (teamsOf g.2) "UNK" hs1 hs2 hw1,
    voteWith_congr σ₁ σ₂ (positionsOf g.2) "F" hs3 hs4 hw2]

/-- Witness for `c3_two_run_agreement`: the two demo enumerations agree on a
pool with unanimous votes. -/
theorem c3_two_run_agreement_witness :
    create_consensus_ranking enumKeepFirst strictPool
      = create_consensus_ranking enumKeepFirstRev strictPool :=
  c3_two_run_agreement enumKeepFirst enumKeepFirstRev strictPool (by decide) (by decide)

/-- C3 counterexample: on a pool with a 1-1 team tie in one name group, two
faithful set enumerations (both realizable iteration orders of Python's
randomized-hash `set`) drive the pipeline to different outputs, refuting
byte-identical two-run determinism in the tied case. -/
theorem c3_counterexample_tie_dependence :
    (SetEnum (teamsOf tiePool) (enumKeepFirst (teamsOf tiePool))
      ∧ SetEnum (teamsOf tiePool) (enumKeepFirstRev (teamsOf tiePool))
      ∧ SetEnum (positionsOf tiePool) (enumKeepFirst (positionsOf tiePool))
      ∧ SetEnum (positionsOf tiePool) (enumKeepFirstRev (positionsOf tiePool)))
    ∧ create_consensus_ranking enumKeepFirst tiePool
        ≠ create_consensus_ranking enumKeepFirstRev tiePool := by
  exact ⟨⟨by decide, by decide, by decide, by decide⟩, by decide⟩
